import Mathlib

/-!
Verification development for the performance-profiling utilities:
timing_analyzer.py, scaling_analyzer.py, memory_profiler.py and
bottleneck_detector.py. Python floats are modelled as exact rationals,
dictionaries as typed records with Option fields for optional keys, and
raised exceptions as Except values.
-/

/-! ## Timing analyzer: regex-based log parsing (parse_timing_log) -/

def isSpaceChar (c : Char) : Bool := c.isWhitespace

def isWordChar (c : Char) : Bool := c.isAlphanum || c = '_'

def isDigitDot (c : Char) : Bool := c.isDigit || c = '.'

/-- Regular-expression abstract syntax covering exactly the constructs used
by the four default patterns of parse_timing_log: literal characters,
character classes, concatenation, greedy star and capture groups. -/
inductive Re where
  | lit : Char → Re
  | cls : (Char → Bool) → Re
  | cat : Re → Re → Re
  | star : Re → Re
  | grp : Nat → Re → Re

def reSize : Re → Nat
  | Re.lit _ => 1
  | Re.cls _ => 1
  | Re.cat a b => reSize a + reSize b + 1
  | Re.star r => reSize r + 1
  | Re.grp _ r => reSize r + 1

/-- Backtracking matcher in continuation-passing style, mirroring the greedy
leftmost semantics of Python re. The fuel argument only guarantees
termination; searchRe supplies enough fuel that it is never exhausted on the
inputs considered here. Captured groups are accumulated along the successful
path as (group number, captured characters) pairs. -/
def matchRe : Nat → Re → List Char → List (Nat × List Char) →
    (List Char → List (Nat × List Char) → Option (List (Nat × List Char))) →
    Option (List (Nat × List Char))
  | 0, _, _, _, _ => none
  | _ + 1, Re.lit c, s, caps, k =>
    match s with
    | [] => none
    | c2 :: rest => if c2 = c then k rest caps else none
  | _ + 1, Re.cls p, s, caps, k =>
    match s with
    | [] => none
    | c2 :: rest => if p c2 then k rest caps else none
  | fuel + 1, Re.cat r1 r2, s, caps, k =>
    matchRe fuel r1 s caps (fun s2 caps2 => matchRe fuel r2 s2 caps2 k)
  | fuel + 1, Re.star r, s, caps, k =>
    (matchRe fuel r s caps (fun s2 caps2 =>
      if s2.length < s.length then matchRe fuel (Re.star r) s2 caps2 k else none))
      <|> k s caps
  | fuel + 1, Re.grp n r, s, caps, k =>
    matchRe fuel r s caps (fun s2 caps2 =>
      k s2 (caps2 ++ [(n, s.take (s.length - s2.length))]))

def searchFuel (re : Re) (s : List Char) : Nat :=
  (reSize re + 2) * (s.length + 2) * (s.length + 2)

/-- re.search: try a match at each start position, leftmost first. -/
def searchRe (re : Re) : List Char → Option (List (Nat × List Char))
  | [] => matchRe (searchFuel re []) re [] [] (fun _ caps => some caps)
  | c :: rest =>
    match matchRe (searchFuel re (c :: rest)) re (c :: rest) [] (fun _ caps => some caps) with
    | some caps => some caps
    | none => searchRe re rest

def capGroup (caps : List (Nat × List Char)) (n : Nat) : Option (List Char) :=
  (caps.find? (fun p => p.1 = n)).map Prod.snd

/-- re.search followed by extraction of groups 1 and 2. -/
def reSearch2 (re : Re) (s : List Char) : Option (List Char × List Char) :=
  match searchRe re s with
  | none => none
  | some caps =>
    match capGroup caps 1, capGroup caps 2 with
    | some g1, some g2 => some (g1, g2)
    | _, _ => none

def plusRe (r : Re) : Re := Re.cat r (Re.star r)

def epsRe : Re := Re.star (Re.cls (fun _ => false))

def catList : List Re → Re
  | [] => epsRe
  | [r] => r
  | r :: rest => Re.cat r (catList rest)

def litStr (s : String) : Re := catList (s.data.map Re.lit)

/-- Pattern 1 of parse_timing_log. -/
def pat1 : Re := catList
  [litStr "Phase:", Re.star (Re.cls isSpaceChar),
   Re.grp 1 (plusRe (Re.cls (fun c => c ≠ ','))), Re.lit ',',
   Re.star (Re.cls isSpaceChar), litStr "Time:", Re.star (Re.cls isSpaceChar),
   Re.grp 2 (plusRe (Re.cls isDigitDot)), Re.lit 's']

/-- Pattern 2 of parse_timing_log. -/
def pat2 : Re := catList
  [Re.grp 1 (Re.cat (plusRe (Re.cls isWordChar))
     (Re.star (Re.cat (plusRe (Re.cls isSpaceChar)) (plusRe (Re.cls isWordChar))))),
   plusRe (Re.cls isSpaceChar), litStr "took", plusRe (Re.cls isSpaceChar),
   Re.grp 2 (plusRe (Re.cls isDigitDot)), Re.star (Re.cls isSpaceChar), Re.lit 's']

/-- Pattern 3 of parse_timing_log. -/
def pat3 : Re := catList
  [Re.lit '[', Re.grp 1 (plusRe (Re.cls (fun c => c ≠ ']'))), Re.lit ']',
   Re.star (Re.cls isSpaceChar), Re.lit ':', Re.star (Re.cls isSpaceChar),
   Re.grp 2 (plusRe (Re.cls isDigitDot)), Re.star (Re.cls isSpaceChar), Re.lit 's']

/-- Pattern 4 of parse_timing_log. -/
def pat4 : Re := catList
  [litStr "Time", plusRe (Re.cls isSpaceChar), litStr "for", plusRe (Re.cls isSpaceChar),
   Re.grp 1 (plusRe (Re.cls (fun c => c ≠ ':'))), Re.lit ':',
   Re.star (Re.cls isSpaceChar), Re.grp 2 (plusRe (Re.cls isDigitDot))]

def default_patterns : List Re := [pat1, pat2, pat3, pat4]

def natOfDigits (ds : List Char) : Nat :=
  ds.foldl (fun acc c => acc * 10 + (c.toNat - 48)) 0

/-- Python float() restricted to strings drawn from the character class of
digits and dots: at least one digit and at most one dot, otherwise a
ValueError (none). The value is the exact rational with the digits before
the dot as integer part and the digits after it as fractional part. -/
def parseFloat (s : List Char) : Option Rat :=
  if s.all isDigitDot && s.any Char.isDigit && decide (s.count '.' ≤ 1) then
    some (mkRat
      (natOfDigits (s.takeWhile (fun c => c ≠ '.')) *
          10 ^ ((s.dropWhile (fun c => c ≠ '.')).drop 1).length +
        natOfDigits ((s.dropWhile (fun c => c ≠ '.')).drop 1))
      (10 ^ ((s.dropWhile (fun c => c ≠ '.')).drop 1).length))
  else none

/-- Python str.strip(). -/
def trimChars (s : List Char) : List Char :=
  ((s.dropWhile isSpaceChar).reverse.dropWhile isSpaceChar).reverse

/-- One pattern applied to one stripped line: a successful search whose
group 2 parses as a nonnegative float yields a (stripped phase, time) entry;
a failed parse or a failed search yields nothing, so the caller falls
through to the next pattern. -/
def tryPattern (re : Re) (line : List Char) : Option (String × Rat) :=
  match reSearch2 re line with
  | none => none
  | some (g1, g2) =>
    match parseFloat g2 with
    | none => none
    | some t => if 0 ≤ t then some (String.mk (trimChars g1), t) else none

/-- The inner pattern loop of parse_timing_log: the first pattern to produce
an entry wins. -/
def processLine (pats : List Re) (line : List Char) : Option (String × Rat) :=
  pats.findSome? (fun p => tryPattern p line)

/-- parse_timing_log over the list of lines of the file: each line is
stripped, empty lines are skipped, and each remaining line contributes at
most one entry, in file order. The malformed-entry counter only feeds a
stderr warning and is not modelled. -/
def parse_timing_log (pats : List Re) (lines : List (List Char)) : List (String × Rat) :=
  lines.filterMap (fun l =>
    let l2 := trimChars l
    if l2.isEmpty then none else processLine pats l2)

/-! ## Timing analyzer: aggregation (aggregate_timings, identify_slowest_phases) -/

structure PhaseStats where
  total_time : Rat
  count : Nat
  mean_time : Rat
  min_time : Rat
  max_time : Rat
  percentage : Rat
deriving DecidableEq

/-- The distinct elements of a list in order of first occurrence: the key
order of a Python dict built by insertion. -/
def firstOcc : List String → List String
  | [] => []
  | a :: l => a :: firstOcc (l.filter (fun b => b ≠ a))
termination_by l => l.length
decreasing_by
  simp only [List.length_cons]
  exact Nat.lt_succ_of_le (List.length_filter_le _ _)

/-- Python min over a nonempty list (0 on the empty list, unreachable). -/
def listMin : List Rat → Rat
  | [] => 0
  | x :: xs => xs.foldl min x

/-- Python max over a nonempty list (0 on the empty list, unreachable). -/
def listMax : List Rat → Rat
  | [] => 0
  | x :: xs => xs.foldl max x

/-- The per-phase time list built by the grouping loop: the times of the
entries of that phase, in entry order. -/
def phaseTimes (entries : List (String × Rat)) (p : String) : List Rat :=
  (entries.filter (fun e => e.1 = p)).map Prod.snd

def mkPhaseStats (times : List Rat) (total_time : Rat) : PhaseStats :=
  { total_time := times.sum
  , count := times.length
  , mean_time := times.sum / (times.length : Rat)
  , min_time := listMin times
  , max_time := listMax times
  , percentage := if 0 < total_time then times.sum / total_time * 100 else 0 }

/-- aggregate_timings: empty input gives the empty dictionary; otherwise one
entry per distinct phase, in first-occurrence order, with the statistics of
that phase. -/
def aggregate_timings (entries : List (String × Rat)) : List (String × PhaseStats) :=
  if entries.isEmpty then [] else
  (firstOcc (entries.map Prod.fst)).map (fun p =>
    (p, mkPhaseStats (phaseTimes entries p) (entries.map Prod.snd).sum))

/-- identify_slowest_phases: phase names sorted by total time descending
(stable, as Python sorted with reverse=True), truncated to top_n. -/
def identify_slowest_phases (agg : List (String × PhaseStats)) (top_n : Nat) : List String :=
  if agg.isEmpty then [] else
  ((agg.mergeSort (fun a b => decide (b.2.total_time ≤ a.2.total_time))).take top_n).map Prod.fst

/-! ## Timing analyzer JSON output and bottleneck detector input -/

/-- One element of a phases array: the timing analyzer writes every field;
the bottleneck detector requires name and reads percentage with default 0. -/
structure PhaseEntry where
  name : String
  total_time : Option Rat
  count : Option Nat
  mean_time : Option Rat
  min_time : Option Rat
  max_time : Option Rat
  percentage : Option Rat
deriving DecidableEq

structure TimingSection where
  phases : Option (List PhaseEntry)
  total_time : Option Rat
  slowest_phase : Option (Option String)
deriving DecidableEq

/-- The top-level JSON object exchanged between the timing analyzer and the
bottleneck detector, with one optional field per top-level key that either
side reads or writes. -/
structure TimingDoc where
  inputs_log_file : Option String
  inputs_pattern : Option String
  results : Option TimingSection
  timing_data : Option TimingSection
deriving DecidableEq

/-- The JSON report printed by the timing analyzer main in JSON mode: keys
inputs and results only; results holds the phases array (all statistics plus
the name), the grand total and the slowest phase. -/
def timing_analyzer_json (log_file : String) (patternArg : Option String)
    (entries : List (String × Rat)) : TimingDoc :=
  let aggregated := aggregate_timings entries
  let slowest := identify_slowest_phases aggregated 5
  { inputs_log_file := some log_file
  , inputs_pattern := some (patternArg.getD "default")
  , results := some
      { phases := some (aggregated.map (fun pr =>
          { name := pr.1
          , total_time := some pr.2.total_time
          , count := some pr.2.count
          , mean_time := some pr.2.mean_time
          , min_time := some pr.2.min_time
          , max_time := some pr.2.max_time
          , percentage := some pr.2.percentage }))
      , total_time := some ((aggregated.map (fun pr => pr.2.total_time)).sum)
      , slowest_phase := some slowest.head? }
  , timing_data := none }

structure Bottleneck where
  btype : String
  phase : String
  severity : String
  metric : String
  value : Rat
  threshold : Rat
deriving DecidableEq

/-- detect_timing_bottlenecks: reads the top-level key timing_data (not
results), takes its phases array with default empty, and keeps each phase
whose percentage (default 0) exceeds the threshold, severity high above 70
and medium otherwise. -/
def detect_timing_bottlenecks (timing_data : TimingDoc) (threshold : Rat) : List Bottleneck :=
  match timing_data.timing_data with
  | none => []
  | some td =>
    (td.phases.getD []).filterMap (fun phase =>
      let percentage := phase.percentage.getD 0
      if threshold < percentage then
        some { btype := "timing"
             , phase := phase.name
             , severity := if (70 : Rat) < percentage then "high" else "medium"
             , metric := "percentage"
             , value := percentage
             , threshold := threshold }
      else none)

/-! ## Scaling analyzer (load_scaling_data, compute_strong_scaling, compute_weak_scaling) -/

structure Run where
  processors : Rat
  time : Rat
deriving DecidableEq

structure ScalingResult where
  processors : Rat
  time : Rat
  speedup : Rat
  efficiency : Rat
deriving DecidableEq

structure ScalingAnalysis where
  stype : String
  baseline_processors : Rat
  baseline_time : Rat
  results : List ScalingResult
  efficiency_threshold_processors : Option Rat
  average_efficiency : Rat
deriving DecidableEq

/-- Python sorted with key processors: stable merge sort. -/
def sortByProcs (runs : List Run) : List Run :=
  runs.mergeSort (fun a b => decide (a.processors ≤ b.processors))

/-- The first result whose efficiency is below 0.70, the threshold-finding
loop of both scaling computations. -/
def effThreshold (results : List ScalingResult) : Option Rat :=
  (results.find? (fun r => decide (r.efficiency < 0.70))).map (fun r => r.processors)

def avgEfficiency (results : List ScalingResult) : Rat :=
  (results.map (fun r => r.efficiency)).sum / (results.length : Rat)

/-- The loop body of compute_strong_scaling: speedup is T_baseline over T_N
and efficiency is speedup over the processor ratio. -/
def strongResult (baseline run : Run) : ScalingResult :=
  { processors := run.processors
  , time := run.time
  , speedup := baseline.time / run.time
  , efficiency := (baseline.time / run.time) / (run.processors / baseline.processors) }

/-- The loop body of compute_weak_scaling: efficiency is T_baseline over T_N
and speedup is efficiency times the processor ratio. -/
def weakResult (baseline run : Run) : ScalingResult :=
  { processors := run.processors
  , time := run.time
  , speedup := (baseline.time / run.time) * (run.processors / baseline.processors)
  , efficiency := baseline.time / run.time }

/-- compute_strong_scaling. The empty-list case is none, where Python would
raise an IndexError taking sorted_runs[0]; call sites guarantee at least two
runs. -/
def compute_strong_scaling (runs : List Run) : Option ScalingAnalysis :=
  match sortByProcs runs with
  | [] => none
  | baseline :: rest =>
    let results := (baseline :: rest).map (strongResult baseline)
    some { stype := "strong"
         , baseline_processors := baseline.processors
         , baseline_time := baseline.time
         , results := results
         , efficiency_threshold_processors := effThreshold results
         , average_efficiency := avgEfficiency results }

/-- compute_weak_scaling, same shape with the weak-scaling formulas. -/
def compute_weak_scaling (runs : List Run) : Option ScalingAnalysis :=
  match sortByProcs runs with
  | [] => none
  | baseline :: rest =>
    let results := (baseline :: rest).map (weakResult baseline)
    some { stype := "weak"
         , baseline_processors := baseline.processors
         , baseline_time := baseline.time
         , results := results
         , efficiency_threshold_processors := effThreshold results
         , average_efficiency := avgEfficiency results }

/-- A run record of the input JSON: each of the two required keys may be
absent; when present its value is a number. -/
structure RunRec where
  processors : Option Rat
  time : Option Rat
deriving DecidableEq

/-- The state of the input file as seen by load_scaling_data: missing file,
unparseable JSON, or a parsed document whose runs key may be absent. -/
inductive ScalingFile where
  | missing
  | notJson
  | json (runs : Option (List RunRec))
deriving DecidableEq

inductive LoadError where
  | fileNotFound
  | valueError
deriving DecidableEq

/-- The validation loop of load_scaling_data, raising on the first run with
a missing field or a nonpositive value, in the checking order of the code:
processors present, time present, time positive, processors positive. -/
def validateRuns : List RunRec → Except LoadError Unit
  | [] => Except.ok ()
  | r :: rest =>
    match r.processors with
    | none => Except.error LoadError.valueError
    | some procs =>
      match r.time with
      | none => Except.error LoadError.valueError
      | some t =>
        if t ≤ 0 then Except.error LoadError.valueError
        else if procs ≤ 0 then Except.error LoadError.valueError
        else validateRuns rest

def load_scaling_data : ScalingFile → Except LoadError (List RunRec)
  | ScalingFile.missing => Except.error LoadError.fileNotFound
  | ScalingFile.notJson => Except.error LoadError.valueError
  | ScalingFile.json none => Except.error LoadError.valueError
  | ScalingFile.json (some runs) =>
    if runs.length < 2 then Except.error LoadError.valueError
    else
      match validateRuns runs with
      | Except.error e => Except.error e
      | Except.ok _ => Except.ok runs

/-- A run is rejected by the validation loop. -/
def badRun (r : RunRec) : Bool :=
  match r.processors, r.time with
  | none, _ => true
  | some _, none => true
  | some p, some t => decide (t ≤ 0) || decide (p ≤ 0)

/-- The exit status of the scaling analyzer main: both FileNotFoundError and
ValueError are caught and turned into exit status 1 after the error report;
otherwise the program finishes normally. -/
def scaling_main_exit (input : ScalingFile) : Nat :=
  match load_scaling_data input with
  | Except.error _ => 1
  | Except.ok _ => 0

/-! ## Memory profiler (estimate_field_memory, estimate_solver_memory, compute_total_memory) -/

structure MeshP where
  nx : Option Int
  ny : Option Int
  nz : Option Int
deriving DecidableEq

structure FieldSpec where
  components : Option Int
  bytes_per_value : Option Rat
deriving DecidableEq

structure SolverP where
  solver_type : Option String
  workspace_multiplier : Option Rat
deriving DecidableEq

structure MemParams where
  mesh : MeshP
  fields : List (String × FieldSpec)
  solver : Option SolverP
  processors : Option Int
deriving DecidableEq

inductive MemError where
  | valueError
deriving DecidableEq

def meshPoints (mesh : MeshP) : Int :=
  mesh.nx.getD 1 * mesh.ny.getD 1 * mesh.nz.getD 1

def meshValid (mesh : MeshP) : Bool :=
  decide (0 < mesh.nx.getD 1) && decide (0 < mesh.ny.getD 1) && decide (0 < mesh.nz.getD 1)

/-- The field loop of estimate_field_memory: accumulate
mesh_points * components * bytes_per_value over the fields in order,
raising on the first nonpositive components or bytes_per_value. -/
def fieldBytesAux (mp : Rat) (acc : Rat) : List (String × FieldSpec) → Except MemError Rat
  | [] => Except.ok acc
  | (_, fs) :: rest =>
    let comp := fs.components.getD 1
    let bpv := fs.bytes_per_value.getD 8
    if comp ≤ 0 then Except.error MemError.valueError
    else if bpv ≤ 0 then Except.error MemError.valueError
    else fieldBytesAux mp (acc + mp * (comp : Rat) * bpv) rest

/-- estimate_field_memory: validate the mesh dimensions, then total field
bytes converted to GB. -/
def estimate_field_memory (mesh : MeshP) (fields : List (String × FieldSpec)) :
    Except MemError Rat :=
  if meshValid mesh then
    match fieldBytesAux ((meshPoints mesh : Int) : Rat) 0 fields with
    | Except.error e => Except.error e
    | Except.ok b => Except.ok (b / (1024 ^ 3 : Rat))
  else Except.error MemError.valueError

/-- estimate_solver_memory: mesh_points * workspace_multiplier * 8 bytes in
GB; no validation is performed here. -/
def estimate_solver_memory (mesh : MeshP) (solver : SolverP) : Rat :=
  ((meshPoints mesh : Int) : Rat) * solver.workspace_multiplier.getD 5 * 8 / (1024 ^ 3 : Rat)

inductive MemWarning where
  | exceedsAvailable
  | highUsage
deriving DecidableEq

structure MemoryProfile where
  mesh_points : Int
  field_memory_gb : Rat
  solver_workspace_gb : Rat
  total_memory_gb : Rat
  per_process_gb : Rat
  warnings : List MemWarning
deriving DecidableEq

def defaultSolver : SolverP :=
  { solver_type := some "iterative", workspace_multiplier := some 5 }

def compute_total_memory (params : MemParams) (available_gb : Option Rat) :
    Except MemError MemoryProfile :=
  let mesh := params.mesh
  let solver := params.solver.getD defaultSolver
  let processors := params.processors.getD 1
  if processors ≤ 0 then Except.error MemError.valueError
  else
    match estimate_field_memory mesh params.fields with
    | Except.error e => Except.error e
    | Except.ok field_memory_gb =>
      let solver_workspace_gb := estimate_solver_memory mesh solver
      let total_memory_gb := field_memory_gb + solver_workspace_gb
      let warnings :=
        match available_gb with
        | none => []
        | some avail =>
          if avail < total_memory_gb then [MemWarning.exceedsAvailable]
          else if (0.8 : Rat) * avail < total_memory_gb then [MemWarning.highUsage]
          else []
      Except.ok { mesh_points := meshPoints mesh
                , field_memory_gb := field_memory_gb
                , solver_workspace_gb := solver_workspace_gb
                , total_memory_gb := total_memory_gb
                , per_process_gb := total_memory_gb / ((processors : Int) : Rat)
                , warnings := warnings }

/-! ## Helper lemmas -/

theorem mem_firstOcc : ∀ (l : List String) (p : String), p ∈ firstOcc l ↔ p ∈ l
  | [], p => by simp [firstOcc]
  | a :: l, p => by
    by_cases hpa : p = a
    · subst hpa
      simp [firstOcc]
    · simp only [firstOcc, List.mem_cons,
        mem_firstOcc (l.filter (fun b => b ≠ a)) p, List.mem_filter]
      simp [hpa]
termination_by l => l.length
decreasing_by
  simp only [List.length_cons]
  exact Nat.lt_succ_of_le (List.length_filter_le _ _)

theorem nodup_firstOcc : ∀ (l : List String), (firstOcc l).Nodup
  | [] => by simp [firstOcc]
  | a :: l => by
    rw [firstOcc]
    refine List.Nodup.cons ?_ (nodup_firstOcc (l.filter (fun b => b ≠ a)))
    intro hmem
    rcases (List.mem_filter.mp ((mem_firstOcc _ a).mp hmem)).2 with h
    simp at h
termination_by l => l.length
decreasing_by
  simp only [List.length_cons]
  exact Nat.lt_succ_of_le (List.length_filter_le _ _)

theorem sum_filter_partition (l : List (String × Rat)) (a : String) :
    ((l.filter (fun e => e.1 = a)).map Prod.snd).sum
      + ((l.filter (fun e => e.1 ≠ a)).map Prod.snd).sum
      = (l.map Prod.snd).sum := by
  induction l with
  | nil => simp
  | cons e rest ih =>
    by_cases h : e.1 = a
    · simp only [decide_not] at ih
      simp [List.filter_cons, h]
      linarith [ih]
    · simp only [decide_not] at ih
      simp [List.filter_cons, h]
      linarith [ih]

theorem phaseTimes_filter_ne (rest : List (String × Rat)) (a p : String) (hpa : p ≠ a) :
    phaseTimes (rest.filter (fun e => e.1 ≠ a)) p = phaseTimes rest p := by
  unfold phaseTimes
  rw [List.filter_filter]
  congr 1
  apply List.filter_congr
  intro e _
  by_cases h : e.1 = p
  · simp [h, hpa]
  · simp [h]

theorem map_fst_filter_ne (rest : List (String × Rat)) (a : String) :
    (rest.map Prod.fst).filter (fun b => b ≠ a)
      = (rest.filter (fun e => e.1 ≠ a)).map Prod.fst := by
  induction rest with
  | nil => simp
  | cons e r ih =>
    by_cases h : e.1 = a
    · simp only [decide_not] at ih
      simp [List.filter_cons, h, ih]
    · simp only [decide_not] at ih
      simp [List.filter_cons, h, ih]

theorem sumGrouped : ∀ (l : List (String × Rat)),
    ((firstOcc (l.map Prod.fst)).map (fun p => (phaseTimes l p).sum)).sum
      = (l.map Prod.snd).sum
  | [] => by simp [firstOcc]
  | e :: rest => by
    have hlen : (rest.filter (fun x => x.1 ≠ e.1)).length ≤ rest.length :=
      List.length_filter_le _ _
    have ih := sumGrouped (rest.filter (fun x => x.1 ≠ e.1))
    have hmapeq : ((rest.map Prod.fst).filter (fun b => b ≠ e.1))
        = (rest.filter (fun x => x.1 ≠ e.1)).map Prod.fst :=
      map_fst_filter_ne rest e.1
    have hcongr : ∀ p ∈ firstOcc ((rest.filter (fun x => x.1 ≠ e.1)).map Prod.fst),
        (phaseTimes (e :: rest) p).sum
          = (phaseTimes (rest.filter (fun x => x.1 ≠ e.1)) p).sum := by
      intro p hp
      have hpne : p ≠ e.1 := by
        have := (mem_firstOcc _ p).mp hp
        rcases List.mem_map.mp this with ⟨x, hx, hxp⟩
        have := (List.mem_filter.mp hx).2
        simp only [decide_eq_true_eq] at this
        rw [← hxp]
        exact this
      rw [phaseTimes_filter_ne rest e.1 p hpne]
      have hne : ¬ (e.1 = p) := fun hh => hpne hh.symm
      simp [phaseTimes, List.filter_cons, hne]
    have hhead : phaseTimes (e :: rest) e.1 = e.2 :: phaseTimes rest e.1 := by
      simp [phaseTimes, List.filter_cons]
    calc ((firstOcc ((e :: rest).map Prod.fst)).map
            (fun p => (phaseTimes (e :: rest) p).sum)).sum
        = (phaseTimes (e :: rest) e.1).sum
            + ((firstOcc ((rest.map Prod.fst).filter (fun b => b ≠ e.1))).map
                (fun p => (phaseTimes (e :: rest) p).sum)).sum := by
          simp only [List.map_cons, firstOcc, List.sum_cons]
      _ = (phaseTimes (e :: rest) e.1).sum
            + ((firstOcc ((rest.filter (fun x => x.1 ≠ e.1)).map Prod.fst)).map
                (fun p => (phaseTimes (rest.filter (fun x => x.1 ≠ e.1)) p).sum)).sum := by
          rw [hmapeq, List.map_congr_left hcongr]
      _ = (e.2 + (phaseTimes rest e.1).sum)
            + ((rest.filter (fun x => x.1 ≠ e.1)).map Prod.snd).sum := by
          rw [hhead, ih, List.sum_cons]
      _ = ((e :: rest).map Prod.snd).sum := by
          have hpart := sum_filter_partition rest e.1
          simp only [List.map_cons, List.sum_cons]
          unfold phaseTimes at *
          linarith [hpart]
termination_by l => l.length
decreasing_by
  simp only [List.length_cons]
  exact Nat.lt_succ_of_le (List.length_filter_le _ _)

theorem foldl_min_le_init (xs : List Rat) : ∀ (x : Rat), xs.foldl min x ≤ x := by
  induction xs with
  | nil => intro x; simp
  | cons y ys ih =>
    intro x
    calc (y :: ys).foldl min x = ys.foldl min (min x y) := rfl
      _ ≤ min x y := ih (min x y)
      _ ≤ x := min_le_left x y

theorem foldl_min_le_mem (xs : List Rat) :
    ∀ (x z : Rat), z ∈ xs → xs.foldl min x ≤ z := by
  induction xs with
  | nil => intro x z hz; simp at hz
  | cons y ys ih =>
    intro x z hz
    rcases List.mem_cons.mp hz with rfl | hz2
    · calc (z :: ys).foldl min x = ys.foldl min (min x z) := rfl
        _ ≤ min x z := foldl_min_le_init ys (min x z)
        _ ≤ z := min_le_right x z
    · exact ih (min x y) z hz2

theorem foldl_min_mem (xs : List Rat) : ∀ (x : Rat), xs.foldl min x ∈ x :: xs := by
  induction xs with
  | nil => intro x; simp
  | cons y ys ih =>
    intro x
    rcases List.mem_cons.mp (ih (min x y)) with h | h
    · rcases min_choice x y with hm | hm
      · exact List.mem_cons.mpr (Or.inl (h.trans hm))
      · exact List.mem_cons.mpr (Or.inr (List.mem_cons.mpr (Or.inl (h.trans hm))))
    · exact List.mem_cons.mpr (Or.inr (List.mem_cons.mpr (Or.inr h)))

theorem listMin_le_mem (xs : List Rat) (z : Rat) (hz : z ∈ xs) : listMin xs ≤ z := by
  cases xs with
  | nil => simp at hz
  | cons y ys =>
    rcases List.mem_cons.mp hz with rfl | hz2
    · exact foldl_min_le_init ys z
    · exact foldl_min_le_mem ys y z hz2

theorem listMin_mem (xs : List Rat) (h : xs ≠ []) : listMin xs ∈ xs := by
  cases xs with
  | nil => exact absurd rfl h
  | cons y ys => exact foldl_min_mem ys y

theorem foldl_max_init_le (xs : List Rat) : ∀ (x : Rat), x ≤ xs.foldl max x := by
  induction xs with
  | nil => intro x; simp
  | cons y ys ih =>
    intro x
    calc x ≤ max x y := le_max_left x y
      _ ≤ ys.foldl max (max x y) := ih (max x y)
      _ = (y :: ys).foldl max x := rfl

theorem foldl_max_mem_le (xs : List Rat) :
    ∀ (x z : Rat), z ∈ xs → z ≤ xs.foldl max x := by
  induction xs with
  | nil => intro x z hz; simp at hz
  | cons y ys ih =>
    intro x z hz
    rcases List.mem_cons.mp hz with rfl | hz2
    · calc z ≤ max x z := le_max_right x z
        _ ≤ ys.foldl max (max x z) := foldl_max_init_le ys (max x z)
        _ = (z :: ys).foldl max x := rfl
    · exact ih (max x y) z hz2

theorem foldl_max_mem (xs : List Rat) : ∀ (x : Rat), xs.foldl max x ∈ x :: xs := by
  induction xs with
  | nil => intro x; simp
  | cons y ys ih =>
    intro x
    rcases List.mem_cons.mp (ih (max x y)) with h | h
    · rcases max_choice x y with hm | hm
      · exact List.mem_cons.mpr (Or.inl (h.trans hm))
      · exact List.mem_cons.mpr (Or.inr (List.mem_cons.mpr (Or.inl (h.trans hm))))
    · exact List.mem_cons.mpr (Or.inr (List.mem_cons.mpr (Or.inr h)))

theorem mem_le_listMax (xs : List Rat) (z : Rat) (hz : z ∈ xs) : z ≤ listMax xs := by
  cases xs with
  | nil => simp at hz
  | cons y ys =>
    rcases List.mem_cons.mp hz with rfl | hz2
    · exact foldl_max_init_le ys z
    · exact foldl_max_mem_le ys y z hz2

theorem listMax_mem (xs : List Rat) (h : xs ≠ []) : listMax xs ∈ xs := by
  cases xs with
  | nil => exact absurd rfl h
  | cons y ys => exact foldl_max_mem ys y

theorem sum_bounds_of_mem (xs : List Rat) (lo hi : Rat)
    (hlo : ∀ z ∈ xs, lo ≤ z) (hhi : ∀ z ∈ xs, z ≤ hi) :
    lo * (xs.length : Rat) ≤ xs.sum ∧ xs.sum ≤ hi * (xs.length : Rat) := by
  induction xs with
  | nil => simp
  | cons y ys ih =>
    have hy1 := hlo y (List.mem_cons_self y ys)
    have hy2 := hhi y (List.mem_cons_self y ys)
    have ih2 := ih (fun z hz => hlo z (List.mem_cons_of_mem y hz))
      (fun z hz => hhi z (List.mem_cons_of_mem y hz))
    simp only [List.sum_cons, List.length_cons, Nat.cast_succ]
    constructor
    · nlinarith [ih2.1]
    · nlinarith [ih2.2]

theorem find?_eq_some_of_first {α : Type} (p : α → Bool) :
    ∀ (l : List α) (i : Nat) (hi : i < l.length),
      (∀ j (hj : j < i), p (l.get ⟨j, lt_trans hj hi⟩) = false) →
      p (l.get ⟨i, hi⟩) = true →
      l.find? p = some (l.get ⟨i, hi⟩)
  | [], i, hi, _, _ => by simp at hi
  | a :: l, 0, hi, _, hp => by
    simp only [List.get] at hp
    simp [List.find?, hp]
  | a :: l, i + 1, hi, hprev, hp => by
    have ha : p a = false := hprev 0 (Nat.succ_pos i)
    have hi2 : i < l.length := Nat.lt_of_succ_lt_succ hi
    have hrec := find?_eq_some_of_first p l i hi2
      (fun j hj => hprev (j + 1) (Nat.succ_lt_succ hj)) hp
    simp [List.find?, ha, hrec]

theorem sortByProcs_perm (runs : List Run) : List.Perm (sortByProcs runs) runs :=
  List.mergeSort_perm runs _

theorem sortByProcs_sorted (runs : List Run) :
    (sortByProcs runs).Pairwise (fun a b => a.processors ≤ b.processors) := by
  have h := @List.sorted_mergeSort Run
    (fun a b => decide (a.processors ≤ b.processors))
    (fun a b c hab hbc => by
      simp only [decide_eq_true_eq] at *
      exact le_trans hab hbc)
    (fun a b => by
      simp only [Bool.or_eq_true, decide_eq_true_eq]
      exact le_total a.processors b.processors)
    runs
  exact h.imp (fun hab => by simpa using hab)

theorem validateRuns_ok_iff (rs : List RunRec) :
    validateRuns rs = Except.ok () ↔ ∀ r ∈ rs, badRun r = false := by
  induction rs with
  | nil => simp [validateRuns]
  | cons r rest ih =>
    cases hp : r.processors with
    | none => simp [validateRuns, hp, badRun]
    | some procs =>
      cases ht : r.time with
      | none => simp [validateRuns, hp, ht, badRun]
      | some t =>
        by_cases h1 : t ≤ 0
        · simp [validateRuns, hp, ht, h1, badRun]
        · by_cases h2 : procs ≤ 0
          · simp [validateRuns, hp, ht, h1, h2, badRun]
          · simp only [validateRuns, hp, ht, if_neg h1, if_neg h2, ih]
            constructor
            · intro hall r2 hr2
              rcases List.mem_cons.mp hr2 with rfl | h
              · simp [badRun, hp, ht, h1, h2]
              · exact hall r2 h
            · intro hall r2 hr2
              exact hall r2 (List.mem_cons_of_mem r hr2)

theorem validateRuns_error_iff (rs : List RunRec) :
    validateRuns rs = Except.error LoadError.valueError ↔ ∃ r ∈ rs, badRun r = true := by
  have hcases : validateRuns rs = Except.ok () ∨
      validateRuns rs = Except.error LoadError.valueError := by
    induction rs with
    | nil => left; rfl
    | cons r rest ih =>
      cases hp : r.processors with
      | none => right; simp [validateRuns, hp]
      | some procs =>
        cases ht : r.time with
        | none => right; simp [validateRuns, hp, ht]
        | some t =>
          by_cases h1 : t ≤ 0
          · right; simp [validateRuns, hp, ht, h1]
          · by_cases h2 : procs ≤ 0
            · right; simp [validateRuns, hp, ht, h1, h2]
            · simpa [validateRuns, hp, ht, h1, h2] using ih
  constructor
  · intro herr
    by_contra hno
    push_neg at hno
    have hall : ∀ r ∈ rs, badRun r = false := by
      intro r hr
      have := hno r hr
      simpa using this
    rw [(validateRuns_ok_iff rs).mpr hall] at herr
    exact Except.noConfusion herr
  · intro ⟨r, hr, hbad⟩
    rcases hcases with hok | herr
    · have := (validateRuns_ok_iff rs).mp hok r hr
      rw [hbad] at this
      exact Bool.noConfusion this
    · exact herr

theorem fieldBytesAux_ok (fields : List (String × FieldSpec)) :
    ∀ (mp acc : Rat),
      (∀ f ∈ fields, 0 < f.2.components.getD 1 ∧ (0 : Rat) < f.2.bytes_per_value.getD 8) →
      fieldBytesAux mp acc fields = Except.ok
        (acc + mp * (fields.map
          (fun f => ((f.2.components.getD 1 : Int) : Rat) * f.2.bytes_per_value.getD 8)).sum) := by
  induction fields with
  | nil => intro mp acc _; simp [fieldBytesAux]
  | cons f rest ih =>
    intro mp acc hval
    have hf := hval f (List.mem_cons_self f rest)
    have h1 : ¬ (f.2.components.getD 1 ≤ 0) := not_le.mpr hf.1
    have h2 : ¬ (f.2.bytes_per_value.getD 8 ≤ 0) := not_le.mpr hf.2
    have ih2 := ih mp (acc + mp * ((f.2.components.getD 1 : Int) : Rat) * f.2.bytes_per_value.getD 8)
      (fun g hg => hval g (List.mem_cons_of_mem f hg))
    cases f with
    | mk name fs =>
      simp only [fieldBytesAux, if_neg h1, if_neg h2] at *
      rw [ih2]
      congr 1
      simp only [List.map_cons, List.sum_cons]
      ring

theorem findSome?_eq_some_of_first {α β : Type} (f : α → Option β) :
    ∀ (l : List α) (i : Nat) (hi : i < l.length),
      (∀ (j : Nat) (hj : j < i), f (l.get ⟨j, lt_trans hj hi⟩) = none) →
      ∀ p, f (l.get ⟨i, hi⟩) = some p →
      l.findSome? f = some p
  | [], i, hi, _, _, _ => by simp at hi
  | a :: l, 0, hi, _, p, hp => by
    simp only [List.get] at hp
    simp [List.findSome?, hp]
  | a :: l, i + 1, hi, hprev, p, hp => by
    have ha : f a = none := hprev 0 (Nat.succ_pos i)
    have hi2 : i < l.length := Nat.lt_of_succ_lt_succ hi
    have hrec := findSome?_eq_some_of_first f l i hi2
      (fun j hj => hprev (j + 1) (Nat.succ_lt_succ hj)) p hp
    simp [List.findSome?, ha, hrec]

theorem tryPattern_nonneg (re : Re) (line : List Char) (p : String × Rat)
    (h : tryPattern re line = some p) : 0 ≤ p.2 := by
  unfold tryPattern at h
  split at h
  · exact Option.noConfusion h
  · split at h
    · exact Option.noConfusion h
    · split at h
      · cases h
        assumption
      · exact Option.noConfusion h

theorem processLine_nonneg (pats : List Re) (line : List Char) (p : String × Rat)
    (h : processLine pats line = some p) : 0 ≤ p.2 := by
  rcases List.exists_of_findSome?_eq_some h with ⟨re, _, hre⟩
  exact tryPattern_nonneg re line p hre

theorem compute_strong_scaling_eq (runs : List Run) (b : Run) (rest : List Run)
    (h : sortByProcs runs = b :: rest) :
    compute_strong_scaling runs = some
      { stype := "strong"
      , baseline_processors := b.processors
      , baseline_time := b.time
      , results := (b :: rest).map (strongResult b)
      , efficiency_threshold_processors := effThreshold ((b :: rest).map (strongResult b))
      , average_efficiency := avgEfficiency ((b :: rest).map (strongResult b)) } := by
  unfold compute_strong_scaling
  rw [h]

theorem compute_weak_scaling_eq (runs : List Run) (b : Run) (rest : List Run)
    (h : sortByProcs runs = b :: rest) :
    compute_weak_scaling runs = some
      { stype := "weak"
      , baseline_processors := b.processors
      , baseline_time := b.time
      , results := (b :: rest).map (weakResult b)
      , efficiency_threshold_processors := effThreshold ((b :: rest).map (weakResult b))
      , average_efficiency := avgEfficiency ((b :: rest).map (weakResult b)) } := by
  unfold compute_weak_scaling
  rw [h]

theorem sortByProcs_ne_nil (runs : List Run) (h2 : 2 ≤ runs.length) :
    sortByProcs runs ≠ [] := by
  intro hnil
  have := (sortByProcs_perm runs).length_eq
  rw [hnil] at this
  simp at this
  omega

theorem head_min_of_sorted (b : Run) (rest : List Run) (runs : List Run)
    (h : sortByProcs runs = b :: rest) :
    b ∈ runs ∧ ∀ r ∈ runs, b.processors ≤ r.processors := by
  have hperm := sortByProcs_perm runs
  rw [h] at hperm
  constructor
  · exact hperm.mem_iff.mp (List.mem_cons_self b rest)
  · intro r hr
    have hr2 : r ∈ b :: rest := hperm.mem_iff.mpr hr
    rcases List.mem_cons.mp hr2 with rfl | hr3
    · exact le_refl r.processors
    · have hsorted := sortByProcs_sorted runs
      rw [h] at hsorted
      exact (List.pairwise_cons.mp hsorted).1 r hr3

theorem mem_aggregate_iff (entries : List (String × Rat)) (hne : entries ≠ [])
    (p : String) (st : PhaseStats) :
    (p, st) ∈ aggregate_timings entries ↔
      p ∈ entries.map Prod.fst ∧
        st = mkPhaseStats (phaseTimes entries p) (entries.map Prod.snd).sum := by
  unfold aggregate_timings
  rw [if_neg (fun hfalse => hne (List.isEmpty_iff.mp hfalse))]
  constructor
  · intro hmem
    rcases List.mem_map.mp hmem with ⟨q, hq, heq⟩
    cases heq
    exact ⟨(mem_firstOcc _ _).mp hq, rfl⟩
  · rintro ⟨hp, rfl⟩
    exact List.mem_map.mpr ⟨p, (mem_firstOcc _ _).mpr hp, rfl⟩

theorem aggregate_keys_nodup (entries : List (String × Rat)) :
    ((aggregate_timings entries).map Prod.fst).Nodup := by
  unfold aggregate_timings
  split
  · simp
  · rw [List.map_map]
    have hcomp : (Prod.fst ∘ fun p =>
        (p, mkPhaseStats (phaseTimes entries p) (entries.map Prod.snd).sum)) = id := rfl
    rw [hcomp, List.map_id]
    exact nodup_firstOcc (entries.map Prod.fst)

theorem phaseTimes_ne_nil (entries : List (String × Rat)) (p : String)
    (hp : p ∈ entries.map Prod.fst) : phaseTimes entries p ≠ [] := by
  rcases List.mem_map.mp hp with ⟨e, he, rfl⟩
  intro hnil
  have hmem : e.2 ∈ phaseTimes entries e.1 :=
    List.mem_map.mpr ⟨e, List.mem_filter.mpr ⟨he, by simp⟩, rfl⟩
  rw [hnil] at hmem
  simp at hmem

theorem sum_map_mul_const {α : Type} (l : List α) (g : α → Rat) (c : Rat) :
    (l.map (fun x => g x * c)).sum = (l.map g).sum * c := by
  induction l with
  | nil => simp
  | cons x xs ih =>
    simp [ih]
    ring

/-- C3: for every nonempty entry list, aggregate_timings has exactly one
entry per distinct phase name; that phase has total_time the sum of its
times, count the number of its entries, mean_time the total over the count,
min_time and max_time the minimum and maximum of its times, and percentage
the total over the grand total times 100, 0 when the grand total is 0; the
empty entry list gives the empty dictionary. -/
theorem C3_aggregate_timings (entries : List (String × Rat)) :
    (entries = [] → aggregate_timings entries = [])
    ∧ (entries ≠ [] →
        ((aggregate_timings entries).map Prod.fst).Nodup
        ∧ (∀ p : String,
            (∃ st, (p, st) ∈ aggregate_timings entries) ↔ p ∈ entries.map Prod.fst)
        ∧ (∀ (p : String) (st : PhaseStats), (p, st) ∈ aggregate_timings entries →
            st.total_time = (phaseTimes entries p).sum
            ∧ st.count = (phaseTimes entries p).length
            ∧ st.mean_time = st.total_time / (st.count : Rat)
            ∧ st.min_time ∈ phaseTimes entries p
            ∧ (∀ t ∈ phaseTimes entries p, st.min_time ≤ t)
            ∧ st.max_time ∈ phaseTimes entries p
            ∧ (∀ t ∈ phaseTimes entries p, t ≤ st.max_time)
            ∧ (0 < (entries.map Prod.snd).sum →
                st.percentage = st.total_time / (entries.map Prod.snd).sum * 100)
            ∧ ((entries.map Prod.snd).sum = 0 → st.percentage = 0))) := by
  constructor
  · intro h
    subst h
    rfl
  · intro hne
    refine ⟨aggregate_keys_nodup entries, ?_, ?_⟩
    · intro p
      constructor
      · rintro ⟨st, hmem⟩
        exact ((mem_aggregate_iff entries hne p st).mp hmem).1
      · intro hp
        exact ⟨_, (mem_aggregate_iff entries hne p _).mpr ⟨hp, rfl⟩⟩
    · intro p st hmem
      obtain ⟨hp, rfl⟩ := (mem_aggregate_iff entries hne p st).mp hmem
      have hnonempty := phaseTimes_ne_nil entries p hp
      refine ⟨rfl, rfl, rfl, listMin_mem _ hnonempty,
        fun t ht => listMin_le_mem _ t ht, listMax_mem _ hnonempty,
        fun t ht => mem_le_listMax _ t ht, ?_, ?_⟩
      · intro hT
        simp [mkPhaseStats, if_pos hT]
      · intro hT
        simp [mkPhaseStats, hT]

/-- C3 witness at a concrete entry list. -/
theorem C3_aggregate_timings_witness :
    ((aggregate_timings [("a", (2 : Rat)), ("b", 1), ("a", 0)]).map Prod.fst).Nodup :=
  ((C3_aggregate_timings [("a", (2 : Rat)), ("b", 1), ("a", 0)]).2 (by decide)).1

/-- C10: for every nonempty entry list with nonnegative times and positive
grand total, the percentages of aggregate_timings sum to exactly 100 in
exact arithmetic, and each phase satisfies min_time ≤ mean_time ≤
max_time. -/
theorem C10_percentage_sum (entries : List (String × Rat)) (hne : entries ≠ [])
    (hnn : ∀ e ∈ entries, 0 ≤ e.2) (hT : 0 < (entries.map Prod.snd).sum) :
    ((aggregate_timings entries).map (fun pr => pr.2.percentage)).sum = 100
    ∧ ∀ pr ∈ aggregate_timings entries,
        pr.2.min_time ≤ pr.2.mean_time ∧ pr.2.mean_time ≤ pr.2.max_time := by
  constructor
  · unfold aggregate_timings
    rw [if_neg (fun hfalse => hne (List.isEmpty_iff.mp hfalse))]
    rw [List.map_map]
    have hfun : ((fun pr : String × PhaseStats => pr.2.percentage) ∘
        (fun p => (p, mkPhaseStats (phaseTimes entries p) (entries.map Prod.snd).sum)))
        = fun p => (phaseTimes entries p).sum * (100 / (entries.map Prod.snd).sum) := by
      funext p
      simp [mkPhaseStats, Function.comp, if_pos hT]
      ring
    rw [hfun, sum_map_mul_const, sumGrouped entries]
    field_simp
  · intro pr hmem
    cases pr with
    | mk p st =>
      obtain ⟨hp, rfl⟩ := (mem_aggregate_iff entries hne p st).mp hmem
      have hnonempty := phaseTimes_ne_nil entries p hp
      have hlen : 0 < ((phaseTimes entries p).length : Rat) := by
        have := List.length_pos.mpr hnonempty
        exact_mod_cast this
      have hbounds := sum_bounds_of_mem (phaseTimes entries p)
        (listMin (phaseTimes entries p)) (listMax (phaseTimes entries p))
        (fun z hz => listMin_le_mem _ z hz) (fun z hz => mem_le_listMax _ z hz)
      constructor
      · show listMin (phaseTimes entries p) ≤ (phaseTimes entries p).sum /
          ((phaseTimes entries p).length : Rat)
        rw [le_div_iff hlen]
        exact hbounds.1
      · show (phaseTimes entries p).sum / ((phaseTimes entries p).length : Rat) ≤
          listMax (phaseTimes entries p)
        rw [div_le_iff hlen]
        exact hbounds.2

/-- C10 witness at a concrete entry list. -/
theorem C10_percentage_sum_witness :
    ((aggregate_timings [("a", (1 : Rat)), ("b", 3)]).map (fun pr => pr.2.percentage)).sum = 100
    ∧ ∀ pr ∈ aggregate_timings [("a", (1 : Rat)), ("b", 3)],
        pr.2.min_time ≤ pr.2.mean_time ∧ pr.2.mean_time ≤ pr.2.max_time :=
  C10_percentage_sum [("a", (1 : Rat)), ("b", 3)] (by decide) (by decide) (by norm_num)

/-- C9: the core computations are deterministic: equal inputs give equal
outputs for aggregate_timings, compute_strong_scaling, compute_weak_scaling
and compute_total_memory; the embedding is pure, as the code builds fresh
structures and never mutates its arguments. -/
theorem C9_determinism (e1 e2 : List (String × Rat)) (r1 r2 : List Run)
    (p1 p2 : MemParams) (a1 a2 : Option Rat)
    (he : e1 = e2) (hr : r1 = r2) (hp : p1 = p2) (ha : a1 = a2) :
    aggregate_timings e1 = aggregate_timings e2
    ∧ compute_strong_scaling r1 = compute_strong_scaling r2
    ∧ compute_weak_scaling r1 = compute_weak_scaling r2
    ∧ compute_total_memory p1 a1 = compute_total_memory p2 a2 := by
  subst he
  subst hr
  subst hp
  subst ha
  exact ⟨rfl, rfl, rfl, rfl⟩

/-- C9 witness at concrete equal inputs. -/
theorem C9_determinism_witness :
    aggregate_timings [("a", (1 : Rat))] = aggregate_timings [("a", (1 : Rat))]
    ∧ compute_strong_scaling [⟨1, 10⟩, ⟨2, 6⟩] = compute_strong_scaling [⟨1, 10⟩, ⟨2, 6⟩]
    ∧ compute_weak_scaling [⟨1, 10⟩, ⟨2, 6⟩] = compute_weak_scaling [⟨1, 10⟩, ⟨2, 6⟩]
    ∧ compute_total_memory ⟨⟨some 2, some 2, some 2⟩, [], none, none⟩ none
        = compute_total_memory ⟨⟨some 2, some 2, some 2⟩, [], none, none⟩ none :=
  C9_determinism [("a", (1 : Rat))] [("a", (1 : Rat))]
    [⟨1, 10⟩, ⟨2, 6⟩] [⟨1, 10⟩, ⟨2, 6⟩]
    ⟨⟨some 2, some 2, some 2⟩, [], none, none⟩ ⟨⟨some 2, some 2, some 2⟩, [], none, none⟩
    none none rfl rfl rfl rfl

/-- C2: refuted on the code. The timing analyzer main in JSON mode writes
the phases under the top-level key results, while detect_timing_bottlenecks
reads them from the top-level key timing_data; on every report the analyzer
produces, the detector therefore returns no bottlenecks, even when a phase
exceeds the 50 percent threshold. The concrete part shows an analyzer
report whose solve phase has percentage 80 yet is not classified; the
general part shows the detector output is empty on every analyzer report. -/
theorem C2_detector_key_mismatch :
    ((((timing_analyzer_json "sim.log" none [("solve", 80), ("io", 20)]).results.getD
        ⟨none, none, none⟩).phases.getD []).map
          (fun ph => (ph.name, ph.percentage.getD 0)))
      = [("solve", 80), ("io", 20)]
    ∧ detect_timing_bottlenecks
        (timing_analyzer_json "sim.log" none [("solve", 80), ("io", 20)]) 50 = []
    ∧ ∀ (lf : String) (pa : Option String) (es : List (String × Rat)),
        detect_timing_bottlenecks (timing_analyzer_json lf pa es) 50 = [] :=
  ⟨by
    simp [timing_analyzer_json, aggregate_timings, firstOcc, phaseTimes, mkPhaseStats]
    norm_num, rfl, fun _ _ _ => rfl⟩

theorem validateRuns_cases (rs : List RunRec) :
    validateRuns rs = Except.ok () ∨ validateRuns rs = Except.error LoadError.valueError := by
  induction rs with
  | nil => left; rfl
  | cons r rest ih =>
    cases hp : r.processors with
    | none => right; simp [validateRuns, hp]
    | some procs =>
      cases ht : r.time with
      | none => right; simp [validateRuns, hp, ht]
      | some t =>
        by_cases h1 : t ≤ 0
        · right
          simp [validateRuns, hp, ht, h1]
        · by_cases h2 : procs ≤ 0
          · right
            simp [validateRuns, hp, ht, h1, h2]
          · simpa [validateRuns, hp, ht, h1, h2] using ih

/-- C8: load_scaling_data raises FileNotFoundError exactly on a missing
file; it raises ValueError exactly on unparseable JSON, a missing runs key,
fewer than 2 runs, or a run with a missing or nonpositive processors or
time; otherwise it returns the runs list unchanged; and on either error the
scaling analyzer main exits with status 1, otherwise 0. -/
theorem C8_load_scaling_data (f : ScalingFile) :
    (load_scaling_data f = Except.error LoadError.fileNotFound ↔ f = ScalingFile.missing)
    ∧ (load_scaling_data f = Except.error LoadError.valueError ↔
        (f = ScalingFile.notJson ∨ f = ScalingFile.json none ∨
          ∃ runs, f = ScalingFile.json (some runs) ∧
            (runs.length < 2 ∨ ∃ r ∈ runs, badRun r = true)))
    ∧ (∀ runs, f = ScalingFile.json (some runs) → 2 ≤ runs.length →
        (∀ r ∈ runs, badRun r = false) → load_scaling_data f = Except.ok runs)
    ∧ (∀ e, load_scaling_data f = Except.error e → scaling_main_exit f = 1)
    ∧ (∀ runs, load_scaling_data f = Except.ok runs → scaling_main_exit f = 0) := by
  refine ⟨?_, ?_, ?_, ?_, ?_⟩
  · cases f with
    | missing => simp [load_scaling_data]
    | notJson => simp [load_scaling_data]
    | json runs? =>
      cases runs? with
      | none => simp [load_scaling_data]
      | some runs =>
        simp only [load_scaling_data]
        constructor
        · intro h
          exfalso
          by_cases hlen : runs.length < 2
          · rw [if_pos hlen] at h
            simp at h
          · rw [if_neg hlen] at h
            rcases validateRuns_cases runs with hok | herr
            · rw [hok] at h
              simp at h
            · rw [herr] at h
              simp at h
        · intro h
          exact ScalingFile.noConfusion h
  · cases f with
    | missing =>
      constructor
      · intro h
        simp [load_scaling_data] at h
      · rintro (h | h | ⟨runs, h, _⟩) <;> exact ScalingFile.noConfusion h
    | notJson => simp [load_scaling_data]
    | json runs? =>
      cases runs? with
      | none => simp [load_scaling_data]
      | some runs =>
        simp only [load_scaling_data]
        constructor
        · intro h
          refine Or.inr (Or.inr ⟨runs, rfl, ?_⟩)
          by_cases hlen : runs.length < 2
          · exact Or.inl hlen
          · rw [if_neg hlen] at h
            rcases validateRuns_cases runs with hok | herr
            · rw [hok] at h
              simp at h
            · exact Or.inr ((validateRuns_error_iff runs).mp herr)
        · rintro (h | h | ⟨runs2, heq, hcond⟩)
          · exact ScalingFile.noConfusion h
          · exact Option.noConfusion (ScalingFile.json.inj h)
          · have hruns : runs = runs2 := Option.some.inj (ScalingFile.json.inj heq)
            subst hruns
            by_cases hlen : runs.length < 2
            · rw [if_pos hlen]
            · rcases hcond with hlen2 | hbad
              · exact absurd hlen2 hlen
              · rw [if_neg hlen, (validateRuns_error_iff runs).mpr hbad]
  · intro runs heq h2 hvalid
    subst heq
    simp only [load_scaling_data]
    rw [if_neg (Nat.not_lt.mpr h2), (validateRuns_ok_iff runs).mpr hvalid]
  · intro e herr
    unfold scaling_main_exit
    rw [herr]
  · intro runs hok
    unfold scaling_main_exit
    rw [hok]

/-- C8 witness at concrete inputs. -/
theorem C8_load_scaling_data_witness :
    load_scaling_data (ScalingFile.json (some [⟨some 1, some 10⟩, ⟨some 2, some 6⟩]))
      = Except.ok [⟨some 1, some 10⟩, ⟨some 2, some 6⟩]
    ∧ scaling_main_exit ScalingFile.missing = 1 :=
  ⟨(C8_load_scaling_data (ScalingFile.json (some [⟨some 1, some 10⟩, ⟨some 2, some 6⟩]))).2.2.1
      [⟨some 1, some 10⟩, ⟨some 2, some 6⟩] rfl (by decide) (by decide),
   (C8_load_scaling_data ScalingFile.missing).2.2.2.1 LoadError.fileNotFound rfl⟩

/-- C1: for at least 2 runs with positive processors and time,
compute_strong_scaling sorts by processor count ascending, uses the run with
the smallest processor count as baseline, and reports for every run
speedup = T_baseline / T_N and efficiency = speedup / (N / N_baseline). -/
theorem C1_strong_scaling (runs : List Run) (h2 : 2 ≤ runs.length)
    (hpos : ∀ r ∈ runs, 0 < r.processors ∧ 0 < r.time) :
    ∃ a, compute_strong_scaling runs = some a ∧
      ∃ b ∈ runs,
        (∀ r ∈ runs, b.processors ≤ r.processors)
        ∧ a.baseline_processors = b.processors
        ∧ a.baseline_time = b.time
        ∧ List.Perm (a.results.map (fun r => (r.processors, r.time)))
            (runs.map (fun r => (r.processors, r.time)))
        ∧ a.results.Pairwise (fun x y => x.processors ≤ y.processors)
        ∧ ∀ r ∈ a.results, r.speedup = b.time / r.time
            ∧ r.efficiency = r.speedup / (r.processors / b.processors) := by
  cases hs : sortByProcs runs with
  | nil => exact absurd hs (sortByProcs_ne_nil runs h2)
  | cons b rest =>
    refine ⟨_, compute_strong_scaling_eq runs b rest hs, b, ?_⟩
    obtain ⟨hb, hmin⟩ := head_min_of_sorted b rest runs hs
    refine ⟨hb, hmin, rfl, rfl, ?_, ?_, ?_⟩
    · have hmapeq : ((b :: rest).map (strongResult b)).map (fun r => (r.processors, r.time))
          = (b :: rest).map (fun r => (r.processors, r.time)) := by
        rw [List.map_map]
        rfl
      show (((b :: rest).map (strongResult b)).map (fun r => (r.processors, r.time))).Perm
        (runs.map (fun r => (r.processors, r.time)))
      rw [hmapeq, ← hs]
      exact (sortByProcs_perm runs).map _
    · have hsorted := sortByProcs_sorted runs
      rw [hs] at hsorted
      show ((b :: rest).map (strongResult b)).Pairwise (fun x y => x.processors ≤ y.processors)
      exact List.Pairwise.map (strongResult b) (fun x y hxy => hxy) hsorted
    · intro r hr
      rcases List.mem_map.mp hr with ⟨run, _, rfl⟩
      exact ⟨rfl, rfl⟩

/-- C1 witness at a concrete run list. -/
theorem C1_strong_scaling_witness :
    ∃ a, compute_strong_scaling [⟨2, 6⟩, ⟨1, 10⟩] = some a ∧
      ∃ b ∈ [(⟨2, 6⟩ : Run), ⟨1, 10⟩],
        (∀ r ∈ [(⟨2, 6⟩ : Run), ⟨1, 10⟩], b.processors ≤ r.processors)
        ∧ a.baseline_processors = b.processors
        ∧ a.baseline_time = b.time
        ∧ List.Perm (a.results.map (fun r => (r.processors, r.time)))
            ([(⟨2, 6⟩ : Run), ⟨1, 10⟩].map (fun r => (r.processors, r.time)))
        ∧ a.results.Pairwise (fun x y => x.processors ≤ y.processors)
        ∧ ∀ r ∈ a.results, r.speedup = b.time / r.time
            ∧ r.efficiency = r.speedup / (r.processors / b.processors) :=
  C1_strong_scaling [⟨2, 6⟩, ⟨1, 10⟩] (by decide) (by decide)

/-- C5: for at least 2 runs with positive processors and time,
compute_weak_scaling uses the run with the smallest processor count as
baseline and reports for every run efficiency = T_baseline / T_N and
speedup = efficiency * (N / N_baseline). -/
theorem C5_weak_scaling (runs : List Run) (h2 : 2 ≤ runs.length)
    (hpos : ∀ r ∈ runs, 0 < r.processors ∧ 0 < r.time) :
    ∃ a, compute_weak_scaling runs = some a ∧
      ∃ b ∈ runs,
        (∀ r ∈ runs, b.processors ≤ r.processors)
        ∧ a.baseline_processors = b.processors
        ∧ a.baseline_time = b.time
        ∧ List.Perm (a.results.map (fun r => (r.processors, r.time)))
            (runs.map (fun r => (r.processors, r.time)))
        ∧ ∀ r ∈ a.results, r.efficiency = b.time / r.time
            ∧ r.speedup = r.efficiency * (r.processors / b.processors) := by
  cases hs : sortByProcs runs with
  | nil => exact absurd hs (sortByProcs_ne_nil runs h2)
  | cons b rest =>
    refine ⟨_, compute_weak_scaling_eq runs b rest hs, b, ?_⟩
    obtain ⟨hb, hmin⟩ := head_min_of_sorted b rest runs hs
    refine ⟨hb, hmin, rfl, rfl, ?_, ?_⟩
    · have hmapeq : ((b :: rest).map (weakResult b)).map (fun r => (r.processors, r.time))
          = (b :: rest).map (fun r => (r.processors, r.time)) := by
        rw [List.map_map]
        rfl
      show (((b :: rest).map (weakResult b)).map (fun r => (r.processors, r.time))).Perm
        (runs.map (fun r => (r.processors, r.time)))
      rw [hmapeq, ← hs]
      exact (sortByProcs_perm runs).map _
    · intro r hr
      rcases List.mem_map.mp hr with ⟨run, _, rfl⟩
      exact ⟨rfl, rfl⟩

/-- C5 witness at a concrete run list. -/
theorem C5_weak_scaling_witness :
    ∃ a, compute_weak_scaling [⟨2, 12⟩, ⟨1, 10⟩] = some a ∧
      ∃ b ∈ [(⟨2, 12⟩ : Run), ⟨1, 10⟩],
        (∀ r ∈ [(⟨2, 12⟩ : Run), ⟨1, 10⟩], b.processors ≤ r.processors)
        ∧ a.baseline_processors = b.processors
        ∧ a.baseline_time = b.time
        ∧ List.Perm (a.results.map (fun r => (r.processors, r.time)))
            ([(⟨2, 12⟩ : Run), ⟨1, 10⟩].map (fun r => (r.processors, r.time)))
        ∧ ∀ r ∈ a.results, r.efficiency = b.time / r.time
            ∧ r.speedup = r.efficiency * (r.processors / b.processors) :=
  C5_weak_scaling [⟨2, 12⟩, ⟨1, 10⟩] (by decide) (by decide)

theorem scaling_threshold_shape (runs : List Run) (a : ScalingAnalysis)
    (ha : compute_strong_scaling runs = some a ∨ compute_weak_scaling runs = some a) :
    a.efficiency_threshold_processors = effThreshold a.results
    ∧ a.results.Pairwise (fun x y => x.processors ≤ y.processors) := by
  rcases ha with h | h
  · cases hs : sortByProcs runs with
    | nil =>
      unfold compute_strong_scaling at h
      rw [hs] at h
      exact Option.noConfusion h
    | cons b rest =>
      rw [compute_strong_scaling_eq runs b rest hs] at h
      have heq := Option.some.inj h
      subst heq
      constructor
      · rfl
      · have hsorted := sortByProcs_sorted runs
        rw [hs] at hsorted
        exact List.Pairwise.map (strongResult b) (fun x y hxy => hxy) hsorted
  · cases hs : sortByProcs runs with
    | nil =>
      unfold compute_weak_scaling at h
      rw [hs] at h
      exact Option.noConfusion h
    | cons b rest =>
      rw [compute_weak_scaling_eq runs b rest hs] at h
      have heq := Option.some.inj h
      subst heq
      constructor
      · rfl
      · have hsorted := sortByProcs_sorted runs
        rw [hs] at hsorted
        exact List.Pairwise.map (weakResult b) (fun x y hxy => hxy) hsorted

/-- C4: in both compute_strong_scaling and compute_weak_scaling, the
reported efficiency_threshold_processors is the processor count of the
first result, in ascending processor order, with efficiency strictly below
0.70, and none when every efficiency is at least 0.70. -/
theorem C4_efficiency_threshold (runs : List Run) (a : ScalingAnalysis)
    (ha : compute_strong_scaling runs = some a ∨ compute_weak_scaling runs = some a) :
    a.results.Pairwise (fun x y => x.processors ≤ y.processors)
    ∧ ((∀ r ∈ a.results, (0.70 : Rat) ≤ r.efficiency) →
        a.efficiency_threshold_processors = none)
    ∧ (∀ (i : Nat) (hi : i < a.results.length),
        (a.results.get ⟨i, hi⟩).efficiency < 0.70 →
        (∀ (j : Nat) (hj : j < i),
          (0.70 : Rat) ≤ (a.results.get ⟨j, lt_trans hj hi⟩).efficiency) →
        a.efficiency_threshold_processors = some ((a.results.get ⟨i, hi⟩).processors)) := by
  obtain ⟨hthr, hpair⟩ := scaling_threshold_shape runs a ha
  refine ⟨hpair, ?_, ?_⟩
  · intro hall
    rw [hthr]
    unfold effThreshold
    rw [List.find?_eq_none.mpr (fun r hr => by
      simp only [decide_eq_true_eq, not_lt]
      exact hall r hr)]
    rfl
  · intro i hi hlt hprev
    rw [hthr]
    unfold effThreshold
    rw [find?_eq_some_of_first (fun r => decide (r.efficiency < 0.70)) a.results i hi
      (fun j hj => decide_eq_false (not_lt.mpr (hprev j hj)))
      (decide_eq_true hlt)]
    rfl

/-- C4 witness at a concrete run list whose second result falls below the
threshold. -/
theorem C4_efficiency_threshold_witness :
    ∃ (a : ScalingAnalysis) (hi : 1 < a.results.length),
      compute_strong_scaling [⟨1, 10⟩, ⟨2, 10⟩] = some a
      ∧ a.efficiency_threshold_processors = some ((a.results.get ⟨1, hi⟩).processors) := by
  have hs : sortByProcs [(⟨1, 10⟩ : Run), ⟨2, 10⟩] = ⟨1, 10⟩ :: [⟨2, 10⟩] :=
    List.mergeSort_of_sorted (by decide)
  have heq := compute_strong_scaling_eq [⟨1, 10⟩, ⟨2, 10⟩] ⟨1, 10⟩ [⟨2, 10⟩] hs
  refine ⟨_, by simp, heq, ?_⟩
  have hres := (C4_efficiency_threshold [⟨1, 10⟩, ⟨2, 10⟩] _ (Or.inl heq)).2.2
  refine hres 1 (by simp) (by norm_num [strongResult]) ?_
  intro j hj
  have hj0 : j = 0 := by omega
  subst hj0
  norm_num [strongResult]

/-- C7: for valid parameters, compute_total_memory reports
field_memory_gb = nx*ny*nz * (sum over fields of components*bytes_per_value)
/ 2^30, solver_workspace_gb = nx*ny*nz * workspace_multiplier * 8 / 2^30
with workspace_multiplier defaulting to 5, total_memory_gb their sum and
per_process_gb the total over the processor count; missing mesh dimensions
default to 1 and missing field attributes to components 1 and
bytes_per_value 8. -/
theorem C7_compute_total_memory (params : MemParams) (avail : Option Rat)
    (hnx : 0 < params.mesh.nx.getD 1) (hny : 0 < params.mesh.ny.getD 1)
    (hnz : 0 < params.mesh.nz.getD 1)
    (hf : ∀ f ∈ params.fields,
      0 < f.2.components.getD 1 ∧ (0 : Rat) < f.2.bytes_per_value.getD 8)
    (hp : 0 < params.processors.getD 1) :
    ∃ prof, compute_total_memory params avail = Except.ok prof
      ∧ prof.mesh_points
          = params.mesh.nx.getD 1 * params.mesh.ny.getD 1 * params.mesh.nz.getD 1
      ∧ prof.field_memory_gb
          = ((params.mesh.nx.getD 1 * params.mesh.ny.getD 1 * params.mesh.nz.getD 1 : Int) : Rat)
              * (params.fields.map
                  (fun f => ((f.2.components.getD 1 : Int) : Rat) * f.2.bytes_per_value.getD 8)).sum
              / 2 ^ 30
      ∧ prof.solver_workspace_gb
          = ((params.mesh.nx.getD 1 * params.mesh.ny.getD 1 * params.mesh.nz.getD 1 : Int) : Rat)
              * (params.solver.getD defaultSolver).workspace_multiplier.getD 5 * 8 / 2 ^ 30
      ∧ prof.total_memory_gb = prof.field_memory_gb + prof.solver_workspace_gb
      ∧ prof.per_process_gb
          = prof.total_memory_gb / ((params.processors.getD 1 : Int) : Rat) := by
  have hvalid : meshValid params.mesh = true := by
    simp only [meshValid, Bool.and_eq_true, decide_eq_true_eq]
    exact ⟨⟨hnx, hny⟩, hnz⟩
  have hfb := fieldBytesAux_ok params.fields ((meshPoints params.mesh : Int) : Rat) 0 hf
  have hefm : estimate_field_memory params.mesh params.fields
      = Except.ok ((0 + ((meshPoints params.mesh : Int) : Rat)
          * (params.fields.map
              (fun f => ((f.2.components.getD 1 : Int) : Rat) * f.2.bytes_per_value.getD 8)).sum)
          / (1024 ^ 3 : Rat)) := by
    unfold estimate_field_memory
    rw [if_pos hvalid, hfb]
  have hproc : ¬ (params.processors.getD 1 ≤ 0) := not_le.mpr hp
  unfold compute_total_memory
  rw [if_neg hproc, hefm]
  refine ⟨_, rfl, rfl, ?_, ?_, rfl, rfl⟩
  · show (0 + ((meshPoints params.mesh : Int) : Rat)
        * (params.fields.map
            (fun f => ((f.2.components.getD 1 : Int) : Rat) * f.2.bytes_per_value.getD 8)).sum)
        / (1024 ^ 3 : Rat)
      = ((params.mesh.nx.getD 1 * params.mesh.ny.getD 1 * params.mesh.nz.getD 1 : Int) : Rat)
          * (params.fields.map
              (fun f => ((f.2.components.getD 1 : Int) : Rat) * f.2.bytes_per_value.getD 8)).sum
          / 2 ^ 30
    rw [zero_add]
    norm_num [meshPoints]
  · show estimate_solver_memory params.mesh (params.solver.getD defaultSolver)
      = ((params.mesh.nx.getD 1 * params.mesh.ny.getD 1 * params.mesh.nz.getD 1 : Int) : Rat)
          * (params.solver.getD defaultSolver).workspace_multiplier.getD 5 * 8 / 2 ^ 30
    unfold estimate_solver_memory
    norm_num [meshPoints]

/-- C7 witness at concrete parameters. -/
theorem C7_compute_total_memory_witness :
    ∃ prof, compute_total_memory
        ⟨⟨some 256, some 256, some 128⟩,
         [("velocity", ⟨some 3, some 8⟩), ("pressure", ⟨none, none⟩)],
         some ⟨some "iterative", some 6⟩, some 4⟩ (some 100) = Except.ok prof
      ∧ prof.mesh_points = 256 * 256 * 128
      ∧ prof.field_memory_gb
          = ((256 * 256 * 128 : Int) : Rat) * ([("velocity",
              (⟨some 3, some 8⟩ : FieldSpec)), ("pressure", ⟨none, none⟩)].map
                (fun f => ((f.2.components.getD 1 : Int) : Rat) * f.2.bytes_per_value.getD 8)).sum
              / 2 ^ 30
      ∧ prof.solver_workspace_gb = ((256 * 256 * 128 : Int) : Rat) * 6 * 8 / 2 ^ 30
      ∧ prof.total_memory_gb = prof.field_memory_gb + prof.solver_workspace_gb
      ∧ prof.per_process_gb = prof.total_memory_gb / ((4 : Int) : Rat) := by
  have h := C7_compute_total_memory
    ⟨⟨some 256, some 256, some 128⟩,
     [("velocity", ⟨some 3, some 8⟩), ("pressure", ⟨none, none⟩)],
     some ⟨some "iterative", some 6⟩, some 4⟩ (some 100)
    (by decide) (by decide) (by decide) (by decide) (by decide)
  exact h

/-- C6: with the default patterns, each stripped nonempty line is matched
against the four patterns in listed order; the first pattern whose search
succeeds with a parseable nonnegative time contributes exactly one entry;
a line yields at most one entry; negative times are never produced; and
entries appear in file order. -/
theorem C6_parse_timing_log (lines : List (List Char)) :
    (∀ e ∈ parse_timing_log default_patterns lines, 0 ≤ e.2)
    ∧ (parse_timing_log default_patterns lines).length ≤ lines.length
    ∧ (∀ l1 l2 : List (List Char),
        parse_timing_log default_patterns (l1 ++ l2)
          = parse_timing_log default_patterns l1 ++ parse_timing_log default_patterns l2)
    ∧ (∀ l : List Char, trimChars l = [] → parse_timing_log default_patterns [l] = [])
    ∧ (∀ l : List Char, trimChars l ≠ [] →
        parse_timing_log default_patterns [l]
          = (processLine default_patterns (trimChars l)).toList)
    ∧ (∀ (l : List Char) (i : Nat) (hi : i < default_patterns.length),
        (∀ (j : Nat) (hj : j < i),
          tryPattern (default_patterns.get ⟨j, lt_trans hj hi⟩) l = none) →
        ∀ p, tryPattern (default_patterns.get ⟨i, hi⟩) l = some p →
        processLine default_patterns l = some p) := by
  refine ⟨?_, ?_, ?_, ?_, ?_, ?_⟩
  · intro e he
    rcases List.mem_filterMap.mp he with ⟨l, _, hf⟩
    dsimp only at hf
    split at hf
    · exact Option.noConfusion hf
    · exact processLine_nonneg _ _ _ hf
  · exact List.length_filterMap_le _ _
  · intro l1 l2
    exact List.filterMap_append _ _ _
  · intro l h
    simp [parse_timing_log, List.filterMap_cons, h]
  · intro l hne
    have hemp : (trimChars l).isEmpty = false := by
      cases htl : trimChars l with
      | nil => exact absurd htl hne
      | cons a as => rfl
    cases hp : processLine default_patterns (trimChars l) with
    | none => simp [parse_timing_log, List.filterMap_cons, hemp, hp, hne]
    | some p => simp [parse_timing_log, List.filterMap_cons, hemp, hp, hne]
  · intro l i hi hprev p hp
    exact findSome?_eq_some_of_first (fun q => tryPattern q l) default_patterns i hi hprev p hp

/-- C6 witness: a concrete line on which pattern 1 fails and pattern 2
produces the entry. -/
theorem C6_parse_timing_log_witness :
    processLine default_patterns (String.data "solve took 2 s") = some ("solve", 2) := by
  refine (C6_parse_timing_log []).2.2.2.2.2 (String.data "solve took 2 s") 1 (by decide)
    (fun j hj => ?_) ("solve", 2) (by decide)
  have hj0 : j = 0 := by omega
  subst hj0
  exact (by decide : tryPattern pat1 (String.data "solve took 2 s") = none)
